import Mathlib

/-!
Verification of the spectral-line synthesis engine of the `spectra` repository.

The definitions below are shallow embeddings of the Python source:

* `Spectra.Line`, `Spectra.get_branch_idx`, `Spectra.get_allowed_branches`,
  `Spectra.get_allowed_lines` embed the selection-rule enumeration of
  `src/band.py` (`Band.get_allowed_lines` / `get_allowed_branches` /
  `get_branch_idx`).
* `Spectra.npMax`, `Spectra.npMin`, `Spectra.intensities_norm`,
  `Spectra.intensities_line_run` embed the normalization pass of
  `Band.intensities_line` in `src/band.py`, with rationals in place of
  floating point.
* `Spectra.ConvLine` and `Spectra.all_conv_data_bounds` embed the shared-grid
  computation of `Sim.all_conv_data` in `src/sim.py`.
* `Spectra.RotConsts`, `Spectra.hamiltonian_elements`,
  `Spectra.rotational_term_hamiltonian` embed the constant adjustment and
  2x2 Hamiltonian construction of `rotational_term` in `src/terms.py`.
* `Spectra.EnergyState`, `Spectra.rotational_term_alt` embed the closed-form
  rotational term of `src/energy.py`, with the square root kept abstract.
* `Spectra.pyListGet`, `Spectra.vibrational_term` embed `vibrational_term`
  of `src/terms.py`, with Python list indexing modelled exactly
  (`none` stands for the `IndexError`, a `LookupError` subclass).
-/

namespace Spectra

/-- Embedding of the `Line` quantum-number data constructed in
`Band.get_branch_idx` (`src/band.py`): upper/lower rotational quantum
numbers, upper/lower spin-branch indices, and the branch label string
(`"r"`, `"p"`, `"rq"`, `"pq"`). -/
structure Line where
  rot_qn_up : ℤ
  rot_qn_lo : ℤ
  branch_idx_up : ℕ
  branch_idx_lo : ℕ
  branch : String
deriving DecidableEq

/-- Embedding of `Band.get_branch_idx` (`src/band.py`, lines 58-82): for each
pair of spin-branch indices drawn from `branch_range`, append a main-branch
line when the indices are equal, a satellite line labelled
`branch_secondary` when the upper index exceeds the lower and the secondary
label is `"rq"`, or when the upper index is below the lower and the
secondary label is `"pq"`. -/
def get_branch_idx (rot_qn_up rot_qn_lo : ℤ) (branch_range : List ℕ)
    (branch_main branch_secondary : String) : List Line :=
  branch_range.flatMap fun branch_idx_up =>
    branch_range.flatMap fun branch_idx_lo =>
      (if branch_idx_up = branch_idx_lo then
        [⟨rot_qn_up, rot_qn_lo, branch_idx_up, branch_idx_lo, branch_main⟩]
      else []) ++
      (if branch_idx_up > branch_idx_lo ∧ branch_secondary = "rq" then
        [⟨rot_qn_up, rot_qn_lo, branch_idx_up, branch_idx_lo, branch_secondary⟩]
      else if branch_idx_up < branch_idx_lo ∧ branch_secondary = "pq" then
        [⟨rot_qn_up, rot_qn_lo, branch_idx_up, branch_idx_lo, branch_secondary⟩]
      else [])

/-- Embedding of `Band.get_allowed_branches` (`src/band.py`, lines 36-56):
the selection rules for a Sigma-Sigma transition in Hund case (b) coupling allow
only a change of +1 (R branch) or -1 (P branch) in the rotational quantum
number; the spin-branch index range is `range(1, 4)`. -/
def get_allowed_branches (rot_qn_up rot_qn_lo : ℤ) : List Line :=
  if rot_qn_up - rot_qn_lo = 1 then
    get_branch_idx rot_qn_up rot_qn_lo [1, 2, 3] "r" "rq"
  else if rot_qn_up - rot_qn_lo = -1 then
    get_branch_idx rot_qn_up rot_qn_lo [1, 2, 3] "p" "pq"
  else []

/-- Embedding of `Band.get_allowed_lines` (`src/band.py`, lines 25-34): for
molecular oxygen all transitions with an even lower rotational quantum
number are forbidden, so branches are expanded only when
`rot_qn_lo % 2` is nonzero. -/
def get_allowed_lines (rot_lvls : List ℤ) : List Line :=
  rot_lvls.flatMap fun rot_qn_up =>
    rot_lvls.flatMap fun rot_qn_lo =>
      if rot_qn_lo % 2 ≠ 0 then get_allowed_branches rot_qn_up rot_qn_lo
      else []

/-- Embedding of `np.max` over a list of rationals: the maximum of the
elements, with an arbitrary value 0 for the empty list (where `np.max`
raises instead; callers below track nonemptiness separately). -/
def npMax : List ℚ → ℚ
  | [] => 0
  | x :: xs => xs.foldl max x

/-- Embedding of `np.min` over a list of rationals, mirroring `npMax`. -/
def npMin : List ℚ → ℚ
  | [] => 0
  | x :: xs => xs.foldl min x

/-- Embedding of the body of `Band.intensities_line` (`src/band.py`,
lines 114-123): raw line intensities are divided elementwise by their own
maximum, then multiplied elementwise by the Franck-Condon factor of the band
over the global maximum Franck-Condon factor of the simulation. -/
def intensities_norm (raw : List ℚ) (franck_condon max_fc : ℚ) : List ℚ :=
  (raw.map (fun x => x / npMax raw)).map (fun x => x * (franck_condon / max_fc))

/-- Embedding of `Band.intensities_line` with its Python failure behaviour
made explicit: the only exception the body can raise is `np.max` on an
empty array; the source contains no `NormalizationError` and no check of
the maximum, so a zero maximum flows straight into the division (over ℚ,
division by zero yields zero). -/
def intensities_line_run (raw : List ℚ) (franck_condon max_fc : ℚ) :
    Except String (List ℚ) :=
  if raw = [] then
    Except.error "zero-size array to reduction operation maximum"
  else
    Except.ok (intensities_norm raw franck_condon max_fc)

/-- Modelled from the spec: `Line.fwhm_instrument` and `Line.fwhm_doppler`
live in `line.py`, which is not among the examined sources. Per the spec,
the instrument FWHM is the user-supplied broadening converted from
wavelength to wavenumber units at the line position, and the Doppler FWHM
derives from translational temperature and molecular mass; a line is
therefore modelled as carrying its wavenumber together with the two values
those methods return at the arguments used in `Sim.all_conv_data`. -/
structure ConvLine where
  wavenumber : ℚ
  fwhm_instrument_val : ℚ
  fwhm_doppler_val : ℚ
deriving DecidableEq

/-- Embedding of the shared-grid computation of `Sim.all_conv_data`
(`src/sim.py`, lines 93-121): concatenate the line wavenumbers of all bands,
take padding as 10 times the maximum of 2 and the value of
`fwhm_instrument(True, inst_broadening_wl)` on the first line of the first
band, and return the grid
bounds (min minus padding, max plus padding); `none` when the first band or
its line list is missing (the source would raise an IndexError there). -/
def all_conv_data_bounds (bands : List (List ConvLine)) : Option (ℚ × ℚ) :=
  match bands with
  | (line0 :: rest0) :: more =>
    let wavenumbers_line :=
      ((line0 :: rest0) :: more).flatMap (fun band => band.map ConvLine.wavenumber)
    let padding := 10 * max line0.fwhm_instrument_val 2
    some (npMin wavenumbers_line - padding, npMax wavenumbers_line + padding)
  | _ => none

/-- Rotational constants of one electronic state at one vibrational level,
as read from the lookup table in `rotational_term` (`src/terms.py`,
lines 59-64): B, D, lamda, gamma, lamda_D, gamma_D. -/
structure RotConsts where
  b : ℚ
  d : ℚ
  l : ℚ
  g : ℚ
  ld : ℚ
  gd : ℚ
deriving DecidableEq

/-- Hamiltonian matrix data built directly from given constants: the
diagonal elements h11 and h22 of the Cheung 2x2 Hamiltonian together with
the scalar factor of the off-diagonal element (in the source
`h12 = -2 * sqrt(x)` times this factor, and `h21 = h12`). -/
def hamiltonian_elements (c : RotConsts) (x : ℚ) : ℚ × ℚ × ℚ :=
  (c.b * (x + 2) - c.d * (x ^ 2 + 8 * x + 4) - 4 / 3 * c.l - 2 * c.g
     - 4 / 3 * c.ld * (x + 2) - 4 * c.gd * (x + 1),
   c.b - 2 * c.d * (x + 1) - c.g / 2 - 2 / 3 * c.ld - c.gd / 2 * (x + 4),
   c.b * x - c.d * (x ^ 2 + 4 * x) + 2 / 3 * c.l - c.g + 2 / 3 * x * c.ld
     - 3 * x * c.gd)

/-- Embedding of the constant adjustment and matrix-element construction of
`rotational_term` (`src/terms.py`, lines 77-99): when the state is named
"X3Sg-" the code multiplies D by -1 and lamda_D and gamma_D by 2 (to move
the constants of Yu to the convention of Cheung) before forming the matrix
elements at x = J(J+1). -/
def rotational_term_hamiltonian (name : String) (c : RotConsts) (j_qn : ℤ) :
    ℚ × ℚ × ℚ :=
  let d : ℚ := if name = "X3Sg-" then c.d * (-1) else c.d
  let ld : ℚ := if name = "X3Sg-" then c.ld * 2 else c.ld
  let gd : ℚ := if name = "X3Sg-" then c.gd * 2 else c.gd
  let x : ℚ := ((j_qn * (j_qn + 1) : ℤ) : ℚ)
  (c.b * (x + 2) - d * (x ^ 2 + 8 * x + 4) - 4 / 3 * c.l - 2 * c.g
     - 4 / 3 * ld * (x + 2) - 4 * gd * (x + 1),
   c.b - 2 * d * (x + 1) - c.g / 2 - 2 / 3 * ld - gd / 2 * (x + 4),
   c.b * x - d * (x ^ 2 + 4 * x) + 2 / 3 * c.l - c.g + 2 / 3 * x * ld
     - 3 * x * gd)

/-- Constants of an electronic state as consumed by `rotational_term` in
`src/energy.py`: `rot0`, `rot1`, `rot2` are `state.rotational_terms()[0..2]`
and `spn0`, `spn1` are `state.spn_const[0..1]` (the `State` class lives
outside the examined sources and only supplies these tabulated numbers). -/
structure EnergyState where
  rot0 : ℚ
  rot1 : ℚ
  rot2 : ℚ
  spn0 : ℚ
  spn1 : ℚ
deriving DecidableEq

/-- Embedding of `first_term` in `rotational_term` (`src/energy.py`,
lines 17-19). -/
def alt_first_term (st : EnergyState) (rot_qn : ℤ) : ℚ :=
  st.rot0 * (rot_qn : ℚ) * ((rot_qn : ℚ) + 1)
    - st.rot1 * (rot_qn : ℚ) ^ 2 * ((rot_qn : ℚ) + 1) ^ 2
    + st.rot2 * (rot_qn : ℚ) ^ 3 * ((rot_qn : ℚ) + 1) ^ 3

/-- Argument of `np.sqrt` in the branch-index-1 arm of `rotational_term`
(`src/energy.py`, lines 32-34). -/
def alt_radicand_1 (st : EnergyState) (rot_qn : ℤ) : ℚ :=
  (2 * (rot_qn : ℚ) + 3) ^ 2 * st.rot0 ^ 2 + st.spn0 ^ 2
    - 2 * st.spn0 * st.rot0

/-- Argument of `np.sqrt` in the branch-index-3 arm of `rotational_term`
(`src/energy.py`, lines 41-43). -/
def alt_radicand_3 (st : EnergyState) (rot_qn : ℤ) : ℚ :=
  (2 * (rot_qn : ℚ) - 1) ^ 2 * st.rot0 ^ 2 + st.spn0 ^ 2
    - 2 * st.spn0 * st.rot0

/-- Embedding of the alternative closed-form `rotational_term` of
`src/energy.py` (lines 16-44), with `np.sqrt` kept abstract as a function
parameter `s`: the sign variable in front of the square root is -1 when the
rotational quantum number is 1 and +1 otherwise; branch index 1 subtracts
`sqrt_sign` times the square root, branch index 2 returns the plain
polynomial, and every other branch index adds `sqrt_sign` times the square
root. -/
def rotational_term_alt (s : ℚ → ℚ) (rot_qn : ℤ) (st : EnergyState)
    (branch_idx : ℤ) : ℚ :=
  let sqrt_sign : ℚ := if rot_qn = 1 then -1 else 1
  if branch_idx = 1 then
    alt_first_term st rot_qn + (2 * (rot_qn : ℚ) + 3) * st.rot0 + st.spn0
      - sqrt_sign * s (alt_radicand_1 st rot_qn) + st.spn1 * ((rot_qn : ℚ) + 1)
  else if branch_idx = 2 then
    alt_first_term st rot_qn
  else
    alt_first_term st rot_qn - (2 * (rot_qn : ℚ) - 1) * st.rot0 - st.spn0
      + sqrt_sign * s (alt_radicand_3 st rot_qn) - st.spn1 * (rot_qn : ℚ)

/-- Branch-index-1 closed form with the square-root term carrying its
default sign (the direct algebraic expression of the spec away from the
documented exception at rotational quantum number 1). -/
def alt_term_1_default (s : ℚ → ℚ) (rot_qn : ℤ) (st : EnergyState) : ℚ :=
  alt_first_term st rot_qn + (2 * (rot_qn : ℚ) + 3) * st.rot0 + st.spn0
    - s (alt_radicand_1 st rot_qn) + st.spn1 * ((rot_qn : ℚ) + 1)

/-- Branch-index-3 closed form with the square-root term carrying its
default sign. -/
def alt_term_3_default (s : ℚ → ℚ) (rot_qn : ℤ) (st : EnergyState) : ℚ :=
  alt_first_term st rot_qn - (2 * (rot_qn : ℚ) - 1) * st.rot0 - st.spn0
    + s (alt_radicand_3 st rot_qn) - st.spn1 * (rot_qn : ℚ)

/-- Python list indexing `l[i]` for an integer index: negative indices count
from the end, and an index outside the resulting bounds raises IndexError
(a subclass of LookupError), modelled as `none`. -/
def pyListGet (l : List ℚ) (i : ℤ) : Option ℚ :=
  let j : ℤ := if i < 0 then i + l.length else i
  if 0 ≤ j ∧ j < l.length then l.get? j.toNat else none

/-- Electronic state data consumed by `vibrational_term` (`src/terms.py`):
the list `state.constants["G"]` of tabulated vibrational term values,
indexed by the vibrational quantum number. -/
structure ElectronicState where
  g_table : List ℚ
deriving DecidableEq

/-- Embedding of `vibrational_term` (`src/terms.py`, lines 29-39): return
`state.constants["G"][v_qn]` under Python list-indexing semantics. -/
def vibrational_term (state : ElectronicState) (v_qn : ℤ) : Option ℚ :=
  pyListGet state.g_table v_qn

theorem get_branch_idx_r_eq (u lo : ℤ) :
    get_branch_idx u lo [1, 2, 3] "r" "rq" =
      [⟨u, lo, 1, 1, "r"⟩, ⟨u, lo, 2, 1, "rq"⟩, ⟨u, lo, 2, 2, "r"⟩,
       ⟨u, lo, 3, 1, "rq"⟩, ⟨u, lo, 3, 2, "rq"⟩, ⟨u, lo, 3, 3, "r"⟩] := by
  rfl

theorem get_branch_idx_p_eq (u lo : ℤ) :
    get_branch_idx u lo [1, 2, 3] "p" "pq" =
      [⟨u, lo, 1, 1, "p"⟩, ⟨u, lo, 1, 2, "pq"⟩, ⟨u, lo, 1, 3, "pq"⟩,
       ⟨u, lo, 2, 2, "p"⟩, ⟨u, lo, 2, 3, "pq"⟩, ⟨u, lo, 3, 3, "p"⟩] := by
  rfl

theorem mem_get_allowed_branches {u lo : ℤ} {line : Line}
    (h : line ∈ get_allowed_branches u lo) :
    line.rot_qn_up = u ∧ line.rot_qn_lo = lo ∧
      ((u - lo = 1 ∧ (line.branch = "r" ∨ line.branch = "rq")) ∨
       (u - lo = -1 ∧ (line.branch = "p" ∨ line.branch = "pq"))) := by
  unfold get_allowed_branches at h
  by_cases h1 : u - lo = 1
  · rw [if_pos h1, get_branch_idx_r_eq] at h
    simp only [List.mem_cons, List.not_mem_nil, or_false] at h
    rcases h with rfl | rfl | rfl | rfl | rfl | rfl <;> simp [h1]
  · by_cases h2 : u - lo = -1
    · rw [if_neg h1, if_pos h2, get_branch_idx_p_eq] at h
      simp only [List.mem_cons, List.not_mem_nil, or_false] at h
      rcases h with rfl | rfl | rfl | rfl | rfl | rfl <;> simp [h2]
    · rw [if_neg h1, if_neg h2] at h
      simp at h

theorem mem_gbi_r_iff (u lo : ℤ) (line : Line) :
    line ∈ get_branch_idx u lo [1, 2, 3] "r" "rq" ↔
      (line.rot_qn_up = u ∧ line.rot_qn_lo = lo ∧
       1 ≤ line.branch_idx_up ∧ line.branch_idx_up ≤ 3 ∧
       1 ≤ line.branch_idx_lo ∧ line.branch_idx_lo ≤ 3 ∧
       ((line.branch_idx_up = line.branch_idx_lo ∧ line.branch = "r") ∨
        (line.branch_idx_up > line.branch_idx_lo ∧ line.branch = "rq"))) := by
  rw [get_branch_idx_r_eq]
  simp only [List.mem_cons, List.not_mem_nil, or_false]
  constructor
  · rintro (rfl | rfl | rfl | rfl | rfl | rfl) <;> simp
  · obtain ⟨a, b, bu, bl, br⟩ := line
    dsimp only
    rintro ⟨rfl, rfl, h1, h2, h3, h4, (⟨rfl, rfl⟩ | ⟨hlt, rfl⟩)⟩
    · interval_cases bu <;> simp
    · interval_cases bu <;> interval_cases bl <;> simp_all

theorem mem_gbi_p_iff (u lo : ℤ) (line : Line) :
    line ∈ get_branch_idx u lo [1, 2, 3] "p" "pq" ↔
      (line.rot_qn_up = u ∧ line.rot_qn_lo = lo ∧
       1 ≤ line.branch_idx_up ∧ line.branch_idx_up ≤ 3 ∧
       1 ≤ line.branch_idx_lo ∧ line.branch_idx_lo ≤ 3 ∧
       ((line.branch_idx_up = line.branch_idx_lo ∧ line.branch = "p") ∨
        (line.branch_idx_up < line.branch_idx_lo ∧ line.branch = "pq"))) := by
  rw [get_branch_idx_p_eq]
  simp only [List.mem_cons, List.not_mem_nil, or_false]
  constructor
  · rintro (rfl | rfl | rfl | rfl | rfl | rfl) <;> simp
  · obtain ⟨a, b, bu, bl, br⟩ := line
    dsimp only
    rintro ⟨rfl, rfl, h1, h2, h3, h4, (⟨rfl, rfl⟩ | ⟨hlt, rfl⟩)⟩
    · interval_cases bu <;> simp
    · interval_cases bu <;> interval_cases bl <;> simp_all

theorem nodup_gbi_r (u lo : ℤ) : (get_branch_idx u lo [1, 2, 3] "r" "rq").Nodup := by
  rw [get_branch_idx_r_eq]
  simp [Line.mk.injEq]

theorem nodup_gbi_p (u lo : ℤ) : (get_branch_idx u lo [1, 2, 3] "p" "pq").Nodup := by
  rw [get_branch_idx_p_eq]
  simp [Line.mk.injEq]

theorem mem_allowed_lines_fields {u lo : ℤ} {line : Line}
    (h : line ∈ if lo % 2 ≠ 0 then get_allowed_branches u lo else []) :
    line.rot_qn_up = u ∧ line.rot_qn_lo = lo ∧ lo % 2 ≠ 0 := by
  by_cases hodd : lo % 2 ≠ 0
  · rw [if_pos hodd] at h
    obtain ⟨e1, e2, _⟩ := mem_get_allowed_branches h
    exact ⟨e1, e2, hodd⟩
  · rw [if_neg hodd] at h
    simp at h

/-- C1: every Transition emitted by the selection-rule enumeration
(`Band.get_allowed_lines`) has an odd lower rotational quantum number, a
change of rotational quantum number of +1 or -1, and its branch label lies
in the R family (`"r"`/`"rq"`) exactly when the change is +1 and in the P
family (`"p"`/`"pq"`) exactly when the change is -1; hence no emitted line
has a change of 0 or an even lower rotational quantum number. -/
theorem allowed_lines_selection_closure (rot_lvls : List ℤ) (line : Line)
    (h : line ∈ get_allowed_lines rot_lvls) :
    Odd line.rot_qn_lo ∧
      (line.rot_qn_up - line.rot_qn_lo = 1 ∨ line.rot_qn_up - line.rot_qn_lo = -1) ∧
      (line.rot_qn_up - line.rot_qn_lo = 1 ↔ (line.branch = "r" ∨ line.branch = "rq")) ∧
      (line.rot_qn_up - line.rot_qn_lo = -1 ↔ (line.branch = "p" ∨ line.branch = "pq")) := by
  unfold get_allowed_lines at h
  simp only [List.mem_flatMap] at h
  obtain ⟨u, hu, lo, hlo, hm⟩ := h
  by_cases hodd : lo % 2 ≠ 0
  · rw [if_pos hodd] at hm
    obtain ⟨e1, e2, hcase⟩ := mem_get_allowed_branches hm
    rw [e1, e2]
    rcases hcase with ⟨hd, hb⟩ | ⟨hd, hb⟩
    · exact ⟨Int.odd_iff.mpr (by omega), Or.inl hd,
        ⟨fun _ => hb, fun _ => hd⟩,
        iff_of_false (by omega) (by rcases hb with hb | hb <;> rw [hb] <;> decide)⟩
    · exact ⟨Int.odd_iff.mpr (by omega), Or.inr hd,
        iff_of_false (by omega) (by rcases hb with hb | hb <;> rw [hb] <;> decide),
        ⟨fun _ => hb, fun _ => hd⟩⟩
  · rw [if_neg hodd] at hm
    simp at hm

/-- Witness for C1: the line R1(2, 1) is emitted for the requested range
[1, 2] and has an odd lower rotational quantum number. -/
theorem allowed_lines_selection_closure_witness :
    (⟨2, 1, 1, 1, "r"⟩ : Line) ∈ get_allowed_lines [1, 2] ∧
      Odd (Line.mk 2 1 1 1 "r").rot_qn_lo :=
  ⟨by decide, (allowed_lines_selection_closure [1, 2] ⟨2, 1, 1, 1, "r"⟩ (by decide)).1⟩

/-- C2: for one allowed (upper, lower) rotational pair, the branch expansion
`Band.get_branch_idx` emits exactly one main-branch line for each of the
three equal spin-index pairs; a line with unequal spin indices is emitted
exactly when the pair is in the R family with upper index above the lower
(label `"rq"`) or in the P family with upper index below the lower (label
`"pq"`); and no other spin-index combination yields a line (membership
characterization plus duplicate freedom). -/
theorem branch_expansion_characterization (u lo : ℤ) :
    (∀ line : Line,
      (line ∈ get_branch_idx u lo [1, 2, 3] "r" "rq" ↔
        (line.rot_qn_up = u ∧ line.rot_qn_lo = lo ∧
         1 ≤ line.branch_idx_up ∧ line.branch_idx_up ≤ 3 ∧
         1 ≤ line.branch_idx_lo ∧ line.branch_idx_lo ≤ 3 ∧
         ((line.branch_idx_up = line.branch_idx_lo ∧ line.branch = "r") ∨
          (line.branch_idx_up > line.branch_idx_lo ∧ line.branch = "rq")))) ∧
      (line ∈ get_branch_idx u lo [1, 2, 3] "p" "pq" ↔
        (line.rot_qn_up = u ∧ line.rot_qn_lo = lo ∧
         1 ≤ line.branch_idx_up ∧ line.branch_idx_up ≤ 3 ∧
         1 ≤ line.branch_idx_lo ∧ line.branch_idx_lo ≤ 3 ∧
         ((line.branch_idx_up = line.branch_idx_lo ∧ line.branch = "p") ∨
          (line.branch_idx_up < line.branch_idx_lo ∧ line.branch = "pq"))))) ∧
    ((get_branch_idx u lo [1, 2, 3] "r" "rq").count ⟨u, lo, 1, 1, "r"⟩ = 1 ∧
     (get_branch_idx u lo [1, 2, 3] "r" "rq").count ⟨u, lo, 2, 2, "r"⟩ = 1 ∧
     (get_branch_idx u lo [1, 2, 3] "r" "rq").count ⟨u, lo, 3, 3, "r"⟩ = 1 ∧
     (get_branch_idx u lo [1, 2, 3] "p" "pq").count ⟨u, lo, 1, 1, "p"⟩ = 1 ∧
     (get_branch_idx u lo [1, 2, 3] "p" "pq").count ⟨u, lo, 2, 2, "p"⟩ = 1 ∧
     (get_branch_idx u lo [1, 2, 3] "p" "pq").count ⟨u, lo, 3, 3, "p"⟩ = 1) ∧
    (get_branch_idx u lo [1, 2, 3] "r" "rq").Nodup ∧
    (get_branch_idx u lo [1, 2, 3] "p" "pq").Nodup := by
  refine ⟨fun line => ⟨mem_gbi_r_iff u lo line, mem_gbi_p_iff u lo line⟩, ?_,
    nodup_gbi_r u lo, nodup_gbi_p u lo⟩
  refine ⟨?_, ?_, ?_, ?_, ?_, ?_⟩ <;>
    [exact List.count_eq_one_of_mem (nodup_gbi_r u lo) (by rw [get_branch_idx_r_eq]; simp);
     exact List.count_eq_one_of_mem (nodup_gbi_r u lo) (by rw [get_branch_idx_r_eq]; simp);
     exact List.count_eq_one_of_mem (nodup_gbi_r u lo) (by rw [get_branch_idx_r_eq]; simp);
     exact List.count_eq_one_of_mem (nodup_gbi_p u lo) (by rw [get_branch_idx_p_eq]; simp);
     exact List.count_eq_one_of_mem (nodup_gbi_p u lo) (by rw [get_branch_idx_p_eq]; simp);
     exact List.count_eq_one_of_mem (nodup_gbi_p u lo) (by rw [get_branch_idx_p_eq]; simp)]

/-- C5: for a duplicate-free requested rotational range, the selection-rule
enumeration never emits two lines with identical transition tuples (upper
and lower rotational quantum number, upper and lower spin-branch index,
branch label): the emitted list is duplicate-free. -/
theorem allowed_lines_nodup (rot_lvls : List ℤ) (hnd : rot_lvls.Nodup) :
    (get_allowed_lines rot_lvls).Nodup := by
  unfold get_allowed_lines
  rw [List.nodup_flatMap]
  constructor
  · intro u _
    rw [List.nodup_flatMap]
    constructor
    · intro lo _
      by_cases hodd : lo % 2 ≠ 0
      · rw [if_pos hodd]
        unfold get_allowed_branches
        by_cases h1 : u - lo = 1
        · rw [if_pos h1]; exact nodup_gbi_r u lo
        · by_cases h2 : u - lo = -1
          · rw [if_neg h1, if_pos h2]; exact nodup_gbi_p u lo
          · rw [if_neg h1, if_neg h2]; exact List.nodup_nil
      · rw [if_neg hodd]; exact List.nodup_nil
    · refine hnd.imp ?_
      intro a b hab
      simp only [Function.onFun]
      intro x hxa hxb
      have ha := (mem_allowed_lines_fields hxa).2.1
      have hb := (mem_allowed_lines_fields hxb).2.1
      exact hab (ha ▸ hb)
  · refine hnd.imp ?_
    intro a b hab
    simp only [Function.onFun]
    intro x hxa hxb
    simp only [List.mem_flatMap] at hxa hxb
    obtain ⟨loa, _, hma⟩ := hxa
    obtain ⟨lob, _, hmb⟩ := hxb
    have ha := (mem_allowed_lines_fields hma).1
    have hb := (mem_allowed_lines_fields hmb).1
    exact hab (ha ▸ hb)

/-- Witness for C5 at the concrete range [0, 1, 2]. -/
theorem allowed_lines_nodup_witness : (get_allowed_lines [0, 1, 2]).Nodup :=
  allowed_lines_nodup [0, 1, 2] (by decide)

/-- Counterexample for C10: for the requested rotational range [1, 3] the
enumeration emits no main lines at all, not nine (every candidate pair has
a rotational change of 0 or plus or minus 2, which the selection rules reject), so the
claimed count of nine main lines is false. Temperature and pressure do not
enter `Band.get_allowed_lines`. -/
theorem end_to_end_range_one_three_not_nine :
    ¬ ((get_allowed_lines [1, 3]).countP
        (fun line => line.branch == "r" || line.branch == "p") = 9) := by
  decide

/-- C10 (amended): for the requested rotational range [1, 3] the enumeration
emits no lines whatsoever, because the difference between any two requested
levels is 0 or plus or minus 2, never plus or minus 1. -/
theorem end_to_end_range_one_three_empty : get_allowed_lines [1, 3] = [] := by
  decide

theorem le_foldl_max (a : ℚ) (xs : List ℚ) : a ≤ xs.foldl max a := by
  induction xs generalizing a with
  | nil => exact le_refl a
  | cons y ys ih => exact le_trans (le_max_left a y) (ih (max a y))

theorem mem_le_foldl_max {x : ℚ} {xs : List ℚ} (h : x ∈ xs) (a : ℚ) :
    x ≤ xs.foldl max a := by
  induction xs generalizing a with
  | nil => simp at h
  | cons y ys ih =>
    rcases List.mem_cons.mp h with rfl | hx
    · exact le_trans (le_max_right a x) (le_foldl_max _ ys)
    · exact ih hx (max a y)

theorem le_npMax {x : ℚ} {l : List ℚ} (h : x ∈ l) : x ≤ npMax l := by
  cases l with
  | nil => simp at h
  | cons y ys =>
    rcases List.mem_cons.mp h with rfl | hx
    · exact le_foldl_max x ys
    · exact mem_le_foldl_max hx y

theorem foldl_max_map_mul {k : ℚ} (hk : 0 ≤ k) (a : ℚ) (xs : List ℚ) :
    (xs.map (fun x => x * k)).foldl max (a * k) = xs.foldl max a * k := by
  induction xs generalizing a with
  | nil => rfl
  | cons y ys ih =>
    simp only [List.map_cons, List.foldl_cons]
    rw [← max_mul_of_nonneg a y hk, ih (max a y)]

theorem npMax_map_mul {k : ℚ} (hk : 0 ≤ k) {l : List ℚ} (hne : l ≠ []) :
    npMax (l.map (fun x => x * k)) = npMax l * k := by
  cases l with
  | nil => exact absurd rfl hne
  | cons y ys =>
    simp only [npMax, List.map_cons]
    exact foldl_max_map_mul hk y ys

/-- C3: within one band whose raw line intensities are nonnegative with at
least one nonzero entry, and whose Franck-Condon data are admissible
(nonnegative band factor, positive global maximum), the normalization pass
of `Band.intensities_line` maps each raw intensity to raw over the band
maximum times (franck_condon over the global maximum Franck-Condon factor),
and the maximum normalized intensity is exactly franck_condon / max_fc. -/
theorem band_normalization_contract (raw : List ℚ) (franck_condon max_fc : ℚ)
    (hne : raw ≠ []) (hnn : ∀ x ∈ raw, 0 ≤ x) (hsome : ∃ x ∈ raw, x ≠ 0)
    (hfc : 0 ≤ franck_condon) (hmfc : 0 < max_fc) :
    intensities_norm raw franck_condon max_fc =
      raw.map (fun x => x / npMax raw * (franck_condon / max_fc)) ∧
    npMax (intensities_norm raw franck_condon max_fc) = franck_condon / max_fc := by
  obtain ⟨x, hx, hxne⟩ := hsome
  have hm : 0 < npMax raw :=
    lt_of_lt_of_le (lt_of_le_of_ne (hnn x hx) (Ne.symm hxne)) (le_npMax hx)
  have hc : 0 ≤ franck_condon / max_fc := div_nonneg hfc (le_of_lt hmfc)
  constructor
  · simp only [intensities_norm, List.map_map]
    rfl
  · have h1 : raw.map (fun x => x / npMax raw) =
        raw.map (fun x => x * (npMax raw)⁻¹) := by
      simp only [div_eq_mul_inv]
    have h2 : raw.map (fun x => x * (npMax raw)⁻¹) ≠ [] :=
      fun h => hne (List.map_eq_nil_iff.mp h)
    rw [intensities_norm, h1, npMax_map_mul hc h2,
      npMax_map_mul (inv_nonneg.mpr (le_of_lt hm)) hne,
      mul_inv_cancel₀ (ne_of_gt hm), one_mul]

/-- Witness for C3: raw intensities [1, 2] with band Franck-Condon factor 1
and global maximum 2 normalize to a peak of exactly 1/2. -/
theorem band_normalization_contract_witness :
    npMax (intensities_norm [1, 2] 1 2) = 1 / 2 :=
  (band_normalization_contract [1, 2] 1 2 (by decide) (by decide) (by decide)
    (by norm_num) (by norm_num)).2

/-- Counterexample for C8: a band whose lines all have raw intensity zero
has maximum intensity zero, yet the first access of its normalized
intensities raises nothing: `Band.intensities_line` contains no
`NormalizationError` (the identifier appears nowhere in the repository) and
returns a result produced by dividing by the zero maximum. -/
theorem zero_max_intensities_no_error_raised :
    npMax [0, 0] = 0 ∧ intensities_line_run [0, 0] 1 1 = Except.ok [0, 0] := by
  refine ⟨rfl, ?_⟩
  rw [intensities_line_run, if_neg (show ¬([0, 0] : List ℚ) = [] by decide)]
  simp [intensities_norm]

/-- C8 (amended): when the maximum line intensity of a band is zero, no error
of any kind is raised at the access of the normalized intensities of that
band; the
division by the band maximum is performed unconditionally (only an empty
line list can raise, inside `np.max`). -/
theorem intensities_line_no_error (raw : List ℚ) (franck_condon max_fc : ℚ)
    (hne : raw ≠ []) (_hzero : npMax raw = 0) :
    intensities_line_run raw franck_condon max_fc =
      Except.ok (intensities_norm raw franck_condon max_fc) := by
  rw [intensities_line_run, if_neg hne]

/-- Witness for the amended C8 at the all-zero band. -/
theorem intensities_line_no_error_witness :
    intensities_line_run [0, 0] 1 1 = Except.ok (intensities_norm [0, 0] 1 1) :=
  intensities_line_no_error [0, 0] 1 1 (by decide) (by decide)

/-- Counterexample for C4: for a simulation with a single band holding a
single line at wavenumber 100 whose instrument FWHM value is 5 and whose
Doppler FWHM is 3, the code pads the shared grid by 10 * max(5, 2) = 50,
giving bounds (50, 150); the claim (and the comment the source itself places above the
computation) call for the Doppler FWHM, 10 * max(3, 2) = 30, which would
give (70, 130). -/
theorem shared_grid_padding_uses_instrument_fwhm :
    all_conv_data_bounds [[⟨100, 5, 3⟩]] = some (50, 150) ∧
    10 * max (ConvLine.mk 100 5 3).fwhm_doppler_val 2 = 30 ∧
    ((50 : ℚ), (150 : ℚ)) ≠ (100 - 30, 100 + 30) := by
  refine ⟨?_, ?_, ?_⟩
  · simp only [all_conv_data_bounds, List.flatMap, List.map, List.flatten]
    norm_num [npMin, npMax, max_def]
  · norm_num [max_def]
  · norm_num [Prod.mk.injEq]

/-- C6: the rotational-term computation builds the 2x2 Hamiltonian of the
state named "X3Sg-", and only of that state, from the tabulated constants
with D negated and lamda_D and gamma_D doubled; the constants of every
other state enter the matrix unchanged. -/
theorem hamiltonian_convention_adjustment (name : String) (c : RotConsts)
    (j_qn : ℤ) :
    rotational_term_hamiltonian name c j_qn =
      hamiltonian_elements
        (if name = "X3Sg-" then ⟨c.b, -c.d, c.l, c.g, 2 * c.ld, 2 * c.gd⟩ else c)
        ((j_qn * (j_qn + 1) : ℤ) : ℚ) := by
  by_cases h : name = "X3Sg-"
  · simp only [rotational_term_hamiltonian, hamiltonian_elements, if_pos h,
      Prod.mk.injEq]
    exact ⟨by ring, by ring, by ring⟩
  · simp only [rotational_term_hamiltonian, hamiltonian_elements, if_neg h]

/-- C7: in the closed-form rotational-term formula of `src/energy.py`, the
sign in front of the square-root term is inverted exactly when the
rotational quantum number equals 1, for branch indices 1 and 3 (the
deviation from the default-sign expression is twice the square root, with
opposite orientations in the two branches, and it vanishes for every other
rotational quantum number); branch index 2 is the plain polynomial with no
square-root term, being independent of the square-root function
altogether. -/
theorem alt_sqrt_sign_flip_at_one (s : ℚ → ℚ) (st : EnergyState) (rot_qn : ℤ) :
    (rotational_term_alt s rot_qn st 1 =
      alt_term_1_default s rot_qn st
        + (if rot_qn = 1 then 2 * s (alt_radicand_1 st rot_qn) else 0)) ∧
    (rotational_term_alt s rot_qn st 3 =
      alt_term_3_default s rot_qn st
        - (if rot_qn = 1 then 2 * s (alt_radicand_3 st rot_qn) else 0)) ∧
    (∀ t : ℚ → ℚ, rotational_term_alt s rot_qn st 2 =
      rotational_term_alt t rot_qn st 2) := by
  refine ⟨?_, ?_, fun t => ?_⟩
  · by_cases h : rot_qn = 1 <;>
      (norm_num [rotational_term_alt, alt_term_1_default, h]; try ring)
  · by_cases h : rot_qn = 1 <;>
      (norm_num [rotational_term_alt, alt_term_3_default, h]; try ring)
  · norm_num [rotational_term_alt]

/-- C9: for every state and nonnegative vibrational quantum number, the
vibrational-term lookup returns the tabulated value whenever the index is
within the tabulated range, and fails (IndexError, a LookupError subclass,
modelled as `none`) whenever the index reaches past the tabulated range. -/
theorem vibrational_term_lookup (G : List ℚ) (v_qn : ℤ) (hnn : 0 ≤ v_qn) :
    (∀ h : v_qn.toNat < G.length,
      vibrational_term ⟨G⟩ v_qn = some (G.get ⟨v_qn.toNat, h⟩)) ∧
    ((G.length : ℤ) ≤ v_qn → vibrational_term ⟨G⟩ v_qn = none) := by
  have hneg : ¬ v_qn < 0 := not_lt.mpr hnn
  constructor
  · intro h
    simp only [vibrational_term, pyListGet]
    rw [if_neg hneg, if_pos ⟨hnn, by omega⟩]
    exact List.get?_eq_get h
  · intro hge
    simp only [vibrational_term, pyListGet]
    rw [if_neg hneg, if_neg (by omega : ¬ (0 ≤ v_qn ∧ v_qn < (G.length : ℤ)))]

/-- Witness for C9: with the two-entry table [5, 7], index 1 returns the
tabulated value 7 and index 3, past the table, fails the lookup. -/
theorem vibrational_term_lookup_witness :
    vibrational_term ⟨[5, 7]⟩ 1 = some 7 ∧ vibrational_term ⟨[5, 7]⟩ 3 = none := by
  constructor
  · have h := (vibrational_term_lookup [5, 7] 1 (by decide)).1 (by decide)
    simpa using h
  · exact (vibrational_term_lookup [5, 7] 3 (by decide)).2 (by decide)

end Spectra
